import Mathlib

/-
Verification development for the VNect pose-estimation utility module
(`src/utils.py`).  The module is a flat library of image geometry helpers
(scale, pad, square-crop), heatmap-to-joint extraction routines, and a
synthetic Gaussian heatmap generator.  Arrays are modelled as dimension
data plus a total indexing function; sample values are modelled as exact
rationals (reals for the Gaussian generator, whose values involve `exp`
and `sqrt`).  Fallible numpy operations (assertion failures, broadcast
mismatches, out-of-range indexing, argmax of an empty array) are modelled
with `Except String`.
-/

set_option maxRecDepth 4000

namespace VNect

/-- An image / heatmap stack: `h × w × c` array of samples, row-major
(`val row col channel`).  Mirrors the numpy `ndarray`s of `utils.py`;
values outside the declared dimensions are junk (never observed by the
translated code paths). -/
@[ext]
structure Img where
  h : ℕ
  w : ℕ
  c : ℕ
  val : ℕ → ℕ → ℕ → ℚ

/-- Round a rational to the nearest natural number (halves up, negative
values clamp to 0).  Used for the output dimensions of the external
resize primitive. -/
def natRound (q : ℚ) : ℕ := (⌊q + 1/2⌋).toNat

/-- Modelled from the spec: `img_scale` wraps the external `cv2.resize`
(not part of this repository).  Per spec 4.1 it uniformly resizes by
`scale` in both axes, so the output dimensions are the input dimensions
times `scale`, rounded, and it "fails only if the underlying resize
primitive rejects degenerate output dimensions": cv2 raises when the
input is empty or when a computed output dimension rounds to zero
(which covers every nonpositive `scale`).  cv2's Python binding returns
a 2-D array for a single-channel input (the channel axis is squeezed
away), modelled here as `c = 0` — an absent third axis, on which a
later `shape[2]` access raises.  The exact Lanczos resampling of pixel
content is external; content is modelled by coordinate mapping, which
is the identity at `scale = 1` (cv2 copies the source when the
destination size equals the source size; spec 8 relies on this for the
round-trip property). -/
def img_scale (img : Img) (scale : ℚ) : Except String Img :=
  if img.h = 0 ∨ img.w = 0 ∨ img.c = 0 then
    Except.error "!ssize.empty()"
  else if natRound ((img.h : ℚ) * scale) = 0 ∨ natRound ((img.w : ℚ) * scale) = 0 then
    Except.error "!dsize.empty()"
  else
    Except.ok
      { h := natRound ((img.h : ℚ) * scale)
        w := natRound ((img.w : ℚ) * scale)
        c := if img.c = 1 then 0 else img.c
        val := fun i j k => img.val (⌊(i : ℚ) / scale⌋).toNat (⌊(j : ℚ) / scale⌋).toNat k }

/-- `img_padding(img, box_size, offset, pad_num)`: pad the image left and
right to fill a `box_size × box_size × 3` canvas holding `pad_num`
(a `uint8` canvas, hence the `% 256`).  The two leading `assert`s of the
source and the numpy broadcast requirement of the slice assignment
`img_padded[:, a:b, :] = img` are modelled as `Except.error`. -/
def img_padding (img : Img) (box_size offset pad_num : ℕ) : Except String Img :=
  if img.h = box_size then
    if img.w < box_size then
      if img.c = 3 ∧ box_size / 2 - (img.w + 1) / 2 ≤ box_size / 2 + (img.w + 1) / 2 - offset ∧
          box_size / 2 + (img.w + 1) / 2 - offset ≤ box_size ∧
          (box_size / 2 + (img.w + 1) / 2 - offset) - (box_size / 2 - (img.w + 1) / 2) = img.w then
        Except.ok
          { h := box_size
            w := box_size
            c := 3
            val := fun i j k =>
              if box_size / 2 - (img.w + 1) / 2 ≤ j ∧ j < box_size / 2 + (img.w + 1) / 2 - offset then
                img.val i (j - (box_size / 2 - (img.w + 1) / 2)) k
              else ((pad_num % 256 : ℕ) : ℚ) }
      else Except.error "could not broadcast input array"
    else Except.error "width of the image not smaller than box size"
  else Except.error "height of the image not equal to box size"

/-- The final `assert img_cropped.shape == (box_size, box_size, 3)` of
`img_scale_squareify`. -/
def checkShape (box_size : ℕ) (cr : Img) : Except String Img :=
  if cr.h = box_size ∧ cr.w = box_size ∧ cr.c = 3 then Except.ok cr
  else Except.error "cropped image shape invalid"

/-- `img_scale_squareify(img, box_size)`: scale so the height equals
`box_size`, then pad (height > width) or center-crop (height <= width)
to a square, and assert the final shape.  The scale `box_size / h` is
modelled as total rational division: at `h = 0` Python raises
`ZeroDivisionError` before calling the resize, while the model's resize
fails on the empty input — either way the call errors. -/
def img_scale_squareify (img : Img) (box_size : ℕ) : Except String Img :=
  (img_scale img ((box_size : ℚ) / (img.h : ℚ))).bind fun scaled =>
    (if scaled.w < box_size then
        img_padding scaled box_size (scaled.w % 2) 0
      else
        Except.ok
          { h := scaled.h
            w := (scaled.w / 2 + box_size / 2) - (scaled.w / 2 - box_size / 2)
            c := scaled.c
            val := fun i j k => scaled.val i (j + (scaled.w / 2 - box_size / 2)) k }).bind
      (checkShape box_size)

/-- `img_scale_padding(img, scale, pad_num)`: shrink a square image by
`scale` and pad all four sides back to the original size with `np.pad`
(note the source passes the width pads for axis 0 and the height pads
for axis 1; they coincide on square inputs).  The leading `assert` and
the negative-pad failure of `np.pad` are modelled as `Except.error`. -/
def img_scale_padding (img : Img) (scale : ℚ) (pad_num : ℕ) : Except String Img :=
  if img.h = img.w then
    let box := img.h
    (img_scale img scale).bind fun scaled =>
      if scaled.h ≤ box ∧ scaled.w ≤ box then
        Except.ok
          { h := (box - scaled.w) / 2 + scaled.h + ((box - scaled.w) / 2 + (box - scaled.w) % 2)
            w := (box - scaled.h) / 2 + scaled.w + ((box - scaled.h) / 2 + (box - scaled.h) % 2)
            c := scaled.c
            val := fun i j k =>
              if (box - scaled.w) / 2 ≤ i ∧ i < (box - scaled.w) / 2 + scaled.h ∧
                  (box - scaled.h) / 2 ≤ j ∧ j < (box - scaled.h) / 2 + scaled.w then
                scaled.val (i - (box - scaled.w) / 2) (j - (box - scaled.h) / 2) k
              else ((pad_num % 256 : ℕ) : ℚ) }
      else Except.error "negative pad width"
  else Except.error "image not square"

/-- Run a fallible computation over a list, stopping at the first error
(the behaviour of the per-joint `for` loops of `utils.py`, whose bodies
raise on the first bad numpy access). -/
def mapOk {α β : Type} (f : α → Except String β) : List α → Except String (List β)
  | [] => Except.ok []
  | a :: l =>
    match f a with
    | Except.error e => Except.error e
    | Except.ok b =>
      match mapOk f l with
      | Except.error e => Except.error e
      | Except.ok bs => Except.ok (b :: bs)

/-- First index attaining the running maximum: `argmaxGo v k i b bv`
scans `k` further indices starting at `i`, with current best index `b`
of value `bv`; a later index replaces the best only on a strict
increase, which is exactly `np.argmax`'s first-occurrence tie-break. -/
def argmaxGo (v : ℕ → ℚ) : ℕ → ℕ → ℕ → ℚ → ℕ
  | 0, _, b, _ => b
  | k + 1, i, b, bv => if bv < v i then argmaxGo v k (i + 1) i (v i) else argmaxGo v k (i + 1) b bv

/-- `np.argmax` over the first `n` values of `v` (first index of the
maximum); meaningful for `0 < n`. -/
def argmaxFlat (v : ℕ → ℚ) (n : ℕ) : ℕ := argmaxGo v (n - 1) 1 0 (v 0)

/-- `np.unravel_index(idx, (n, m))`: raises when `idx` does not fit the
shape. -/
def unravel_index (idx n m : ℕ) : Except String (ℕ × ℕ) :=
  if idx < n * m then Except.ok (idx / m, idx % m) else Except.error "index out of bounds for array"

/-- Conversion of a natural number into numpy's `int16` (two's-complement
wraparound), applied when a coordinate is stored into the
`dtype=np.int16` output array of `extract_2d_joints_from_heatmap`. -/
def wrap16 (n : ℕ) : ℤ := if n % 65536 < 32768 then (n % 65536 : ℕ) else (n % 65536 : ℕ) - 65536

/-- One iteration of the joint loop of `extract_2d_joints_from_heatmap`:
flatten channel `j` of the rescaled stack row-major, take `np.argmax`
(which raises on an empty array), and unravel against
`(box_size, box_size)`. -/
def extract_2d_channel (scaled : Img) (box_size j : ℕ) : Except String (ℤ × ℤ) :=
  if 0 < scaled.h * scaled.w then
    match unravel_index (argmaxFlat (fun t => scaled.val (t / scaled.w) (t % scaled.w) j)
        (scaled.h * scaled.w)) box_size box_size with
    | Except.error e => Except.error e
    | Except.ok rc => Except.ok (wrap16 rc.1, wrap16 rc.2)
  else Except.error "attempt to get argmax of an empty sequence"

/-- `extract_2d_joints_from_heatmap(heatmap, box_size, hm_factor)`:
assert the stack is spatially square, rescale it by `hm_factor`, read
`heatmap_scaled.shape[2]` (which raises `IndexError` when the rescaled
array is 2-D, i.e. when the input stack had a single channel), and
record the argmax location of every joint channel. -/
def extract_2d_joints_from_heatmap (heatmap : Img) (box_size : ℕ) (hm_factor : ℚ) :
    Except String (List (ℤ × ℤ)) :=
  if heatmap.h = heatmap.w then
    (img_scale heatmap hm_factor).bind fun scaled =>
      if scaled.c = 0 then Except.error "tuple index out of range"
      else mapOk (extract_2d_channel scaled box_size) (List.range scaled.c)
  else Except.error "heatmap not square"

/-- Python's `int()` on a rational value: truncation toward zero. -/
def ratTrunc (q : ℚ) : ℤ := q.num.tdiv q.den

/-- Read one value of a coordinate map, modelling numpy bounds
checking. -/
def hm_read (m : Img) (a b j : ℕ) : Except String ℚ :=
  if a < m.h ∧ b < m.w ∧ j < m.c then Except.ok (m.val a b j) else Except.error "index out of range"

/-- Body of the joint loop of `extract_3d_joints_from_heatmap`: read the
three coordinate maps at the spatial index `(a, b)` and scale each value
by 100 (`scaler`). -/
def read3 (x_hm y_hm z_hm : Img) (a b j : ℕ) : Except String (ℚ × ℚ × ℚ) :=
  match hm_read x_hm a b j with
  | Except.error e => Except.error e
  | Except.ok jx =>
    match hm_read y_hm a b j with
    | Except.error e => Except.error e
    | Except.ok jy =>
      match hm_read z_hm a b j with
      | Except.error e => Except.error e
      | Except.ok jz => Except.ok (jx * 100, jy * 100, jz * 100)

/-- The pre-translation loop of `extract_3d_joints_from_heatmap`: for
joint `j`, the spatial index is `max(int(coord / hm_factor), 1)` in each
axis, computed from the joint's 2D `(row, column)` coordinates. -/
def extract_3d_raw (joints_2d : ℕ → ℤ × ℤ) (x_hm y_hm z_hm : Img) (hm_factor : ℚ) :
    Except String (List (ℚ × ℚ × ℚ)) :=
  mapOk (fun j =>
      read3 x_hm y_hm z_hm
        (max (ratTrunc (((joints_2d j).1 : ℚ) / hm_factor)) 1).toNat
        (max (ratTrunc (((joints_2d j).2 : ℚ) / hm_factor)) 1).toNat j)
    (List.range x_hm.c)

/-- `extract_3d_joints_from_heatmap(joints_2d, x_hm, y_hm, z_hm,
box_size, hm_factor)`: per-joint map reads scaled by 100, then the root
joint (row 14) is subtracted from every row (`joints_3d -=
joints_3d[14, :]`, which raises when there are fewer than 15 rows).
`box_size` is accepted and unused, as in the source. -/
def extract_3d_joints_from_heatmap (joints_2d : ℕ → ℤ × ℤ) (x_hm y_hm z_hm : Img)
    (box_size : ℕ) (hm_factor : ℚ) : Except String (List (ℚ × ℚ × ℚ)) :=
  match extract_3d_raw joints_2d x_hm y_hm z_hm hm_factor with
  | Except.error e => Except.error e
  | Except.ok l =>
    match l.get? 14 with
    | some r => Except.ok (l.map fun p => (p.1 - r.1, p.2.1 - r.2.1, p.2.2 - r.2.2))
    | none => Except.error "root index out of range"

/-- Concrete 2 × 2 two-channel heatmap stack whose unique maximum in
each channel sits at `(row, col) = (1, 0)` (two channels so that the
external resize keeps the channel axis). -/
def whm : Img := ⟨2, 2, 2, fun i j _ => if i = 1 ∧ j = 0 then 1 else 0⟩

/-- Concrete 2 × 2 coordinate-map stack with 15 channels, constantly 5. -/
def wmap : Img := ⟨2, 2, 15, fun _ _ _ => 5⟩

/-- Concrete 1 × 2 × 3 image (wider than tall after scaling). -/
def cex4 : Img := ⟨1, 2, 3, fun _ _ _ => 0⟩

/-- Concrete 1 × 1 × 3 image. -/
def wim1 : Img := ⟨1, 1, 3, fun _ _ _ => 4⟩

/-- Concrete 2 × 1 × 3 image, constantly 7. -/
def wpimg : Img := ⟨2, 1, 3, fun _ _ _ => 7⟩

/-- Concrete 2 × 2 × 3 image with distinct pixel values. -/
def wsq : Img := ⟨2, 2, 3, fun i j k => (i * 10 + j + k : ℚ)⟩

/-- Concrete 182 × 182 two-channel heatmap stack whose unique maximum in
each channel sits at the last pixel `(181, 181)`, i.e. at row-major
flat index 33123 (two channels so that the external resize keeps the
channel axis). -/
def bigHm : Img := ⟨182, 182, 2, fun i j _ => if i = 181 ∧ j = 181 then 1 else 0⟩

/-- The fixed truncation threshold `th = 4.6052` of `gen_heatmap`. -/
def th : ℚ := 46052 / 10000

/-- `delta = math.sqrt(th * 2)` (an irrational constant, about 3.035). -/
noncomputable def sqrtTh2 : ℝ := Real.sqrt (2 * (th : ℝ))

/-- Python's `int()` on a real value: truncation toward zero. -/
noncomputable def realTrunc (r : ℝ) : ℤ := if 0 ≤ r then ⌊r⌋ else ⌈r⌉

/-- The loop bounds computed by `gen_heatmap`:
`x0 = int(max(0, cx - delta*sigma))`, `x1 = int(min(w, cx + delta*sigma))`
and likewise for `y` against the height. -/
structure BBox where
  x0 : ℤ
  y0 : ℤ
  x1 : ℤ
  y1 : ℤ

/-- The bounding box of `gen_heatmap` for canvas width `w`, height `h`,
center `(cx, cy)` and standard deviation `sigma`. -/
noncomputable def gen_bounds (w h : ℕ) (cx cy sigma : ℚ) : BBox where
  x0 := realTrunc (max 0 ((cx : ℝ) - sqrtTh2 * (sigma : ℝ)))
  y0 := realTrunc (max 0 ((cy : ℝ) - sqrtTh2 * (sigma : ℝ)))
  x1 := realTrunc (min (w : ℝ) ((cx : ℝ) + sqrtTh2 * (sigma : ℝ)))
  y1 := realTrunc (min (h : ℝ) ((cy : ℝ) + sqrtTh2 * (sigma : ℝ)))

/-- Membership of pixel `(x, y)` in the iteration ranges
`range(y0, y1)`, `range(x0, x1)` of `gen_heatmap`. -/
def inBBox (bb : BBox) (x y : ℕ) : Prop :=
  bb.y0 ≤ (y : ℤ) ∧ (y : ℤ) < bb.y1 ∧ bb.x0 ≤ (x : ℤ) ∧ (x : ℤ) < bb.x1

instance (bb : BBox) (x y : ℕ) : Decidable (inBBox bb x y) :=
  inferInstanceAs (Decidable (_ ∧ _ ∧ _ ∧ _))

/-- The exponent `exp = d / 2.0 / sigma / sigma` computed by
`gen_heatmap` for pixel `(x, y)`, with
`d = (x - cx)**2 + (y - cy)**2`. -/
def gauss_arg (cx cy sigma : ℚ) (x y : ℕ) : ℚ :=
  (((x : ℚ) - cx) ^ 2 + ((y : ℚ) - cy) ^ 2) / 2 / sigma / sigma

/-- `gen_heatmap(img_shape, center, sigma)` as a pixel function
(`img_shape = (img_height, img_width)`, indexed `heatmap[y][x]`).  A
pixel is written only when it lies in the bounding box and its exponent
does not exceed `th`; since the canvas starts at zero and the exponent
is nonnegative, the written value `np.clip(0, exp(-arg), 1.0)` equals
`exp(-arg)`. -/
noncomputable def gen_heatmap (img_shape : ℕ × ℕ) (center : ℚ × ℚ) (sigma : ℚ) (y x : ℕ) : ℝ :=
  if inBBox (gen_bounds img_shape.2 img_shape.1 center.1 center.2 sigma) x y ∧
      gauss_arg center.1 center.2 sigma x y ≤ th then
    Real.exp (-(gauss_arg center.1 center.2 sigma x y : ℝ))
  else 0

/-!
Helper lemmas.  The Batteries rational-number operations are marked
irreducible; re-enable definitional unfolding so that `decide` and `rfl`
can evaluate concrete rational arithmetic.
-/

attribute [local semireducible] Rat.mul Rat.inv Rat.add Rat.sub Rat.ofScientific

@[simp]
theorem ok_bind {α β : Type} (a : α) (f : α → Except String β) :
    (Except.ok a : Except String α).bind f = f a := rfl

@[simp]
theorem error_bind {α β : Type} (e : String) (f : α → Except String β) :
    (Except.error e : Except String α).bind f = Except.error e := rfl

theorem floor_add_half (n : ℕ) : ⌊(n : ℚ) + 1 / 2⌋ = n := by
  rw [Int.floor_eq_iff]
  constructor
  · push_cast
    linarith
  · push_cast
    linarith

theorem natRound_natCast (n : ℕ) : natRound (n : ℚ) = n := by
  unfold natRound
  rw [floor_add_half, Int.toNat_natCast]

theorem toNat_floor_div_one (i : ℕ) : (⌊(i : ℚ) / 1⌋).toNat = i := by
  simp

theorem img_scale_one (img : Img) (hh : 1 ≤ img.h) (hw : 1 ≤ img.w) (hc : 2 ≤ img.c) :
    img_scale img 1 = Except.ok img := by
  unfold img_scale
  have e1 : natRound ((img.h : ℚ) * 1) = img.h := by rw [mul_one, natRound_natCast]
  have e2 : natRound ((img.w : ℚ) * 1) = img.w := by rw [mul_one, natRound_natCast]
  rw [if_neg (by omega), if_neg (by rw [e1, e2]; omega)]
  congr 1
  refine Img.ext ?_ ?_ ?_ ?_
  · exact e1
  · exact e2
  · show (if img.c = 1 then 0 else img.c) = img.c
    rw [if_neg (by omega)]
  · funext i j k
    show img.val (⌊(i : ℚ) / 1⌋).toNat (⌊(j : ℚ) / 1⌋).toNat k = img.val i j k
    rw [toNat_floor_div_one, toNat_floor_div_one]

theorem img_scale_ok_inv {img : Img} {scale : ℚ} {s : Img}
    (h : img_scale img scale = Except.ok s) :
    img.h ≠ 0 ∧ img.w ≠ 0 ∧ img.c ≠ 0 ∧
    natRound ((img.h : ℚ) * scale) ≠ 0 ∧ natRound ((img.w : ℚ) * scale) ≠ 0 ∧
    s = ⟨natRound ((img.h : ℚ) * scale), natRound ((img.w : ℚ) * scale),
         if img.c = 1 then 0 else img.c,
         fun i j k => img.val (⌊(i : ℚ) / scale⌋).toNat (⌊(j : ℚ) / scale⌋).toNat k⟩ := by
  unfold img_scale at h
  split at h
  · exact Except.noConfusion h
  · split at h
    · exact Except.noConfusion h
    · rename_i h1 h2
      injection h with h
      push_neg at h1 h2
      exact ⟨h1.1, h1.2.1, h1.2.2, h2.1, h2.2, h.symm⟩

theorem mapOk_ok_length {α β : Type} (f : α → Except String β) :
    ∀ (l : List α) (r : List β), mapOk f l = Except.ok r → r.length = l.length := by
  intro l
  induction l with
  | nil =>
    intro r h
    unfold mapOk at h
    injection h with h
    rw [← h]
    rfl
  | cons x t ih =>
    intro r h
    unfold mapOk at h
    cases hf : f x with
    | error e => rw [hf] at h; exact Except.noConfusion h
    | ok b =>
      rw [hf] at h
      cases hm : mapOk f t with
      | error e => rw [hm] at h; exact Except.noConfusion h
      | ok bs =>
        rw [hm] at h
        injection h with h
        rw [← h]
        simp [ih bs hm]

theorem mapOk_ok_get {α β : Type} (f : α → Except String β) :
    ∀ (l : List α) (r : List β), mapOk f l = Except.ok r →
      ∀ (k : ℕ) (a : α), l.get? k = some a →
        ∃ b, f a = Except.ok b ∧ r.get? k = some b := by
  intro l
  induction l with
  | nil =>
    intro r h k a ha
    simp at ha
  | cons x t ih =>
    intro r h k a ha
    unfold mapOk at h
    cases hf : f x with
    | error e => rw [hf] at h; exact Except.noConfusion h
    | ok b =>
      rw [hf] at h
      cases hm : mapOk f t with
      | error e => rw [hm] at h; exact Except.noConfusion h
      | ok bs =>
        rw [hm] at h
        injection h with h
        subst h
        cases k with
        | zero =>
          simp at ha
          subst ha
          exact ⟨b, hf, rfl⟩
        | succ k =>
          simp only [List.get?_cons_succ] at ha
          obtain ⟨c, hc1, hc2⟩ := ih bs hm k a ha
          exact ⟨c, hc1, by simpa using hc2⟩

theorem mapOk_cons {α β : Type} (f : α → Except String β) (a : α) (l : List α) {b : β}
    {bs : List β} (ha : f a = Except.ok b) (hl : mapOk f l = Except.ok bs) :
    mapOk f (a :: l) = Except.ok (b :: bs) := by
  unfold mapOk
  rw [ha, hl]

theorem argmaxGo_correct (v : ℕ → ℚ) :
    ∀ (k i b : ℕ), b < i → (∀ t, t < i → v t ≤ v b) → (∀ t, t < b → v t < v b) →
      argmaxGo v k i b (v b) < i + k ∧
      (∀ t, t < i + k → v t ≤ v (argmaxGo v k i b (v b))) ∧
      (∀ t, t < argmaxGo v k i b (v b) → v t < v (argmaxGo v k i b (v b))) := by
  intro k
  induction k with
  | zero =>
    intro i b hbi hmax hfirst
    simp only [argmaxGo]
    exact ⟨by omega, fun t ht => hmax t (by omega), hfirst⟩
  | succ k ih =>
    intro i b hbi hmax hfirst
    simp only [argmaxGo]
    by_cases hc : v b < v i
    · rw [if_pos hc]
      have h2 : ∀ t, t < i + 1 → v t ≤ v i := by
        intro t ht
        rcases Nat.lt_succ_iff_lt_or_eq.mp ht with h | h
        · exact le_of_lt (lt_of_le_of_lt (hmax t h) hc)
        · rw [h]
      have h3 : ∀ t, t < i → v t < v i := fun t ht => lt_of_le_of_lt (hmax t ht) hc
      have h := ih (i + 1) i (by omega) h2 h3
      have heq : i + (k + 1) = (i + 1) + k := by omega
      rw [heq]
      exact h
    · rw [if_neg hc]
      have h2 : ∀ t, t < i + 1 → v t ≤ v b := by
        intro t ht
        rcases Nat.lt_succ_iff_lt_or_eq.mp ht with h | h
        · exact hmax t h
        · rw [h]; exact not_lt.mp hc
      have h := ih (i + 1) b (by omega) h2 hfirst
      have heq : i + (k + 1) = (i + 1) + k := by omega
      rw [heq]
      exact h

theorem argmaxFlat_correct (v : ℕ → ℚ) (n : ℕ) (hn : 0 < n) :
    argmaxFlat v n < n ∧ (∀ t, t < n → v t ≤ v (argmaxFlat v n)) ∧
      (∀ t, t < argmaxFlat v n → v t < v (argmaxFlat v n)) := by
  have hmax : ∀ t, t < 1 → v t ≤ v 0 := by
    intro t ht
    have : t = 0 := by omega
    rw [this]
  have h := argmaxGo_correct v (n - 1) 1 0 (by omega) hmax (fun t ht => absurd ht (by omega))
  unfold argmaxFlat
  have he : 1 + (n - 1) = n := by omega
  rw [he] at h
  exact h

theorem argmaxFlat_unique (v : ℕ → ℚ) (n M : ℕ) (hM : M < n)
    (huniq : ∀ t, t < n → t ≠ M → v t < v M) : argmaxFlat v n = M := by
  have h := argmaxFlat_correct v n (by omega)
  by_contra hne
  exact absurd (huniq _ h.1 hne) (not_lt.mpr (h.2.1 M hM))

theorem wrap16_small (m : ℕ) (h : m < 32768) : wrap16 m = m := by
  unfold wrap16
  rw [Nat.mod_eq_of_lt (by omega)]
  rw [if_pos h]

theorem hm_read_ok {m : Img} {a b j : ℕ} {v : ℚ} (h : hm_read m a b j = Except.ok v) :
    v = m.val a b j := by
  unfold hm_read at h
  by_cases hc : a < m.h ∧ b < m.w ∧ j < m.c
  · rw [if_pos hc] at h
    injection h with h
    exact h.symm
  · rw [if_neg hc] at h
    exact Except.noConfusion h

theorem read3_ok {x_hm y_hm z_hm : Img} {a b j : ℕ} {p : ℚ × ℚ × ℚ}
    (h : read3 x_hm y_hm z_hm a b j = Except.ok p) :
    p = (x_hm.val a b j * 100, y_hm.val a b j * 100, z_hm.val a b j * 100) := by
  unfold read3 at h
  cases hx : hm_read x_hm a b j with
  | error e => rw [hx] at h; exact Except.noConfusion h
  | ok jx =>
    rw [hx] at h
    cases hy : hm_read y_hm a b j with
    | error e => rw [hy] at h; exact Except.noConfusion h
    | ok jy =>
      rw [hy] at h
      cases hz : hm_read z_hm a b j with
      | error e => rw [hz] at h; exact Except.noConfusion h
      | ok jz =>
        rw [hz] at h
        injection h with h
        rw [← h, hm_read_ok hx, hm_read_ok hy, hm_read_ok hz]

/-!
Claim theorems.
-/

/-- C1: for every call to `extract_3d_joints_from_heatmap` whose inputs
have at least 15 joint channels, row 14 of the returned `joints_3d`
(the root joint) is exactly `(0, 0, 0)`, for any input coordinate-map
values. -/
theorem C1_root_joint_zero (joints_2d : ℕ → ℤ × ℤ) (x_hm y_hm z_hm : Img) (box_size : ℕ)
    (hm_factor : ℚ) (l : List (ℚ × ℚ × ℚ)) (h15 : 15 ≤ x_hm.c)
    (h : extract_3d_joints_from_heatmap joints_2d x_hm y_hm z_hm box_size hm_factor
      = Except.ok l) :
    l.get? 14 = some (0, 0, 0) := by
  unfold extract_3d_joints_from_heatmap at h
  split at h
  · exact Except.noConfusion h
  · split at h
    · rename_i lr heq r hg
      injection h with h
      rw [← h, List.get?_map, hg]
      simp
    · exact Except.noConfusion h

/-- Witness for C1: a concrete run with 15 constant coordinate maps. -/
theorem C1_witness :
    15 ≤ wmap.c ∧
    (List.replicate 15 ((0 : ℚ), (0 : ℚ), (0 : ℚ))).get? 14 = some (0, 0, 0) :=
  ⟨by decide,
   C1_root_joint_zero (fun _ => (0, 0)) wmap wmap wmap 368 1 _ (by decide) (by rfl)⟩

/-- C2: for every joint index `k`, a successful `extract_3d` loop reads
all three coordinate maps at the same spatial index
`(max(trunc(row/hm_factor), 1), max(trunc(col/hm_factor), 1))` computed
from that joint's 2D coordinates, multiplies each value read by exactly
100, and (before the root translation) row `k` of the result is those
three scaled values; moreover the conversion truncates, which is the
floor for nonnegative arguments. -/
theorem C2_coordinate_map_reads :
    (∀ (joints_2d : ℕ → ℤ × ℤ) (x_hm y_hm z_hm : Img) (hm_factor : ℚ)
        (l : List (ℚ × ℚ × ℚ)) (k : ℕ),
        extract_3d_raw joints_2d x_hm y_hm z_hm hm_factor = Except.ok l → k < x_hm.c →
        l.get? k = some
          (x_hm.val (max (ratTrunc (((joints_2d k).1 : ℚ) / hm_factor)) 1).toNat
              (max (ratTrunc (((joints_2d k).2 : ℚ) / hm_factor)) 1).toNat k * 100,
           y_hm.val (max (ratTrunc (((joints_2d k).1 : ℚ) / hm_factor)) 1).toNat
              (max (ratTrunc (((joints_2d k).2 : ℚ) / hm_factor)) 1).toNat k * 100,
           z_hm.val (max (ratTrunc (((joints_2d k).1 : ℚ) / hm_factor)) 1).toNat
              (max (ratTrunc (((joints_2d k).2 : ℚ) / hm_factor)) 1).toNat k * 100)) ∧
    (∀ q : ℚ, 0 ≤ q → ratTrunc q = ⌊q⌋) := by
  constructor
  · intro joints_2d x_hm y_hm z_hm hm_factor l k h hk
    obtain ⟨b, hb1, hb2⟩ :=
      mapOk_ok_get _ (List.range x_hm.c) l h k k (List.get?_range hk)
    rw [hb2, read3_ok hb1]
  · intro q hq
    unfold ratTrunc
    rw [Rat.floor_def]
    exact Int.tdiv_eq_ediv (Rat.num_nonneg.mpr hq) (by positivity)

/-- Witness for C2: the same concrete run as C1, inspected at joint 3
before the root translation, together with a concrete truncation. -/
theorem C2_witness :
    (List.replicate 15 ((500 : ℚ), (500 : ℚ), (500 : ℚ))).get? 3
      = some (wmap.val 1 1 3 * 100, wmap.val 1 1 3 * 100, wmap.val 1 1 3 * 100) ∧
    ratTrunc (7 / 2) = ⌊(7 / 2 : ℚ)⌋ :=
  ⟨C2_coordinate_map_reads.1 (fun _ => (0, 0)) wmap wmap wmap 1 _ 3 (by rfl) (by decide),
   C2_coordinate_map_reads.2 (7 / 2) (by norm_num)⟩

theorem extract_2d_channel_ok {scaled : Img} {box_size j : ℕ} {p : ℤ × ℤ}
    (h : extract_2d_channel scaled box_size j = Except.ok p) :
    0 < scaled.h * scaled.w ∧
    argmaxFlat (fun t => scaled.val (t / scaled.w) (t % scaled.w) j) (scaled.h * scaled.w)
      < box_size * box_size ∧
    p = (wrap16 (argmaxFlat (fun t => scaled.val (t / scaled.w) (t % scaled.w) j)
            (scaled.h * scaled.w) / box_size),
         wrap16 (argmaxFlat (fun t => scaled.val (t / scaled.w) (t % scaled.w) j)
            (scaled.h * scaled.w) % box_size)) := by
  unfold extract_2d_channel at h
  split at h
  · rename_i hc
    split at h
    · exact Except.noConfusion h
    · rename_i rc hu
      injection h with h
      unfold unravel_index at hu
      split at hu
      · rename_i hlt
        injection hu with hu
        refine ⟨hc, hlt, ?_⟩
        rw [← h, ← hu]
      · exact Except.noConfusion hu
  · exact Except.noConfusion h

theorem extract_2d_ok_get {heatmap : Img} {box_size : ℕ} {hm_factor : ℚ}
    {l : List (ℤ × ℤ)} {j : ℕ} {p : ℤ × ℤ}
    (h : extract_2d_joints_from_heatmap heatmap box_size hm_factor = Except.ok l)
    (hg : l.get? j = some p) :
    ∃ scaled, img_scale heatmap hm_factor = Except.ok scaled ∧
      extract_2d_channel scaled box_size j = Except.ok p := by
  unfold extract_2d_joints_from_heatmap at h
  split at h
  · cases hsc : img_scale heatmap hm_factor with
    | error e =>
      rw [hsc, error_bind] at h
      exact Except.noConfusion h
    | ok scaled =>
      rw [hsc, ok_bind] at h
      split at h
      · exact Except.noConfusion h
      · have hlen := mapOk_ok_length _ _ _ h
        have hj : j < scaled.c := by
          obtain ⟨hjl, -⟩ := List.get?_eq_some.mp hg
          rw [hlen, List.length_range] at hjl
          exact hjl
        obtain ⟨b, hb1, hb2⟩ := mapOk_ok_get _ _ _ h j j (List.get?_range hj)
        rw [hg] at hb2
        injection hb2 with hb2
        rw [← hb2] at hb1
        exact ⟨scaled, rfl, hb1⟩
  · exact Except.noConfusion h

theorem rowmajor_div {y x box : ℕ} (hx : x < box) : (y * box + x) / box = y := by
  rw [mul_comm, Nat.mul_add_div (by omega), Nat.div_eq_of_lt hx, add_zero]

theorem rowmajor_mod {y x box : ℕ} (hx : x < box) : (y * box + x) % box = x := by
  rw [mul_comm, Nat.mul_add_mod, Nat.mod_eq_of_lt hx]

theorem rowmajor_lt {y x box : ℕ} (hy : y < box) (hx : x < box) : y * box + x < box * box :=
  calc y * box + x < y * box + box := by omega
  _ = (y + 1) * box := by ring
  _ ≤ box * box := Nat.mul_le_mul_right box (by omega)

/-- C3 counterexample: a square 2 × 2 two-channel stack with the maximum
of each channel at `(1, 0)`, box size 3, scale factor 1 (the resize at
scale 1 is the identity on this two-channel stack, as the second
conjunct records).  The function returns `(0, 2)` for both channels
(the flat argmax index 2 unraveled against the wrong shape `(3, 3)`),
and the rescaled channel's value at `(0, 2)` is strictly smaller than
its value at `(1, 0)`, so the returned pair is not an argmax
location. -/
theorem C3_unravel_mismatch_cex :
    extract_2d_joints_from_heatmap whm 3 1 = Except.ok [(0, 2), (0, 2)] ∧
    img_scale whm 1 = Except.ok whm ∧
    whm.val 0 2 0 < whm.val 1 0 0 := by
  refine ⟨by rfl, img_scale_one whm (by decide) (by decide) (by decide), by decide⟩

/-- C3 (amended): whenever the rescaled stack's spatial dimensions both
equal `box_size` and `box_size ≤ 32768`, each returned pair is the
row-major-first argmax location of its rescaled channel: the value there
is maximal over the whole `box_size × box_size` plane, and every cell
strictly earlier in row-major order is strictly smaller. -/
theorem C3_first_argmax (heatmap : Img) (box_size : ℕ) (hm_factor : ℚ)
    (l : List (ℤ × ℤ)) (j : ℕ) (r c : ℤ) (scaled : Img)
    (hsc : img_scale heatmap hm_factor = Except.ok scaled)
    (hh : scaled.h = box_size)
    (hw : scaled.w = box_size)
    (hbox : box_size ≤ 32768)
    (h : extract_2d_joints_from_heatmap heatmap box_size hm_factor = Except.ok l)
    (hg : l.get? j = some (r, c)) :
    0 ≤ r ∧ 0 ≤ c ∧ r.toNat < box_size ∧ c.toNat < box_size ∧
    (∀ y x, y < box_size → x < box_size →
      scaled.val y x j ≤ scaled.val r.toNat c.toNat j) ∧
    (∀ y x, y < box_size → x < box_size → y * box_size + x < r.toNat * box_size + c.toNat →
      scaled.val y x j < scaled.val r.toNat c.toNat j) := by
  obtain ⟨scaled2, hsc2, hch⟩ := extract_2d_ok_get h hg
  rw [hsc] at hsc2
  injection hsc2 with hsc2
  subst hsc2
  obtain ⟨hpos, hlt, hp⟩ := extract_2d_channel_ok hch
  set am := argmaxFlat (fun t => scaled.val (t / scaled.w) (t % scaled.w) j)
    (scaled.h * scaled.w) with ham
  have hbpos : 0 < box_size := by
    rcases Nat.eq_zero_or_pos box_size with h0 | h0
    · rw [h0] at hlt
      norm_num at hlt
    · exact h0
  have hdiv : am / box_size < box_size := Nat.div_lt_iff_lt_mul hbpos |>.mpr hlt
  have hmod : am % box_size < box_size := Nat.mod_lt _ hbpos
  have hr : r = (am / box_size : ℕ) := by
    have := congrArg Prod.fst hp
    simpa [wrap16_small (am / box_size) (by omega)] using this
  have hc : c = (am % box_size : ℕ) := by
    have := congrArg Prod.snd hp
    simpa [wrap16_small (am % box_size) (by omega)] using this
  have hrn : r.toNat = am / box_size := by rw [hr, Int.toNat_natCast]
  have hcn : c.toNat = am % box_size := by rw [hc, Int.toNat_natCast]
  have hcor := argmaxFlat_correct (fun t => scaled.val (t / scaled.w) (t % scaled.w) j)
    (scaled.h * scaled.w) hpos
  have hflat : ∀ y x, y < box_size → x < box_size →
      scaled.val ((y * box_size + x) / scaled.w) ((y * box_size + x) % scaled.w) j
        = scaled.val y x j := by
    intro y x hy hx
    rw [hw, rowmajor_div hx, rowmajor_mod hx]
  have hback : scaled.val (am / scaled.w) (am % scaled.w) j
      = scaled.val r.toNat c.toNat j := by
    rw [hw, hrn, hcn]
  have ham_eq : r.toNat * box_size + c.toNat = am := by
    rw [hrn, hcn, mul_comm, Nat.div_add_mod]
  refine ⟨by rw [hr]; exact Int.natCast_nonneg _, by rw [hc]; exact Int.natCast_nonneg _,
    by rw [hrn]; exact hdiv, by rw [hcn]; exact hmod, ?_, ?_⟩
  · intro y x hy hx
    have := hcor.2.1 (y * box_size + x) (by rw [hh, hw]; exact rowmajor_lt hy hx)
    rw [← hflat y x hy hx, ← hback]
    exact this
  · intro y x hy hx hlt2
    have := hcor.2.2 (y * box_size + x) (by rw [ham_eq] at hlt2; exact hlt2)
    rw [← hflat y x hy hx, ← hback]
    exact this

/-- Witness for the amended C3: the 2 × 2 two-channel stack with maximum
at `(1, 0)` and matching box size 2; the returned location is `(1, 0)`
and it dominates the earlier cell `(0, 1)`. -/
theorem C3_first_argmax_witness :
    (0 : ℤ) ≤ 1 ∧ (1 : ℤ).toNat < 2 ∧
    whm.val 0 1 0 ≤ whm.val (1 : ℤ).toNat (0 : ℤ).toNat 0 := by
  have h := C3_first_argmax whm 2 1 [(1, 0), (1, 0)] 0 1 0 whm
    (img_scale_one whm (by decide) (by decide) (by decide)) rfl rfl (by norm_num)
    (by rfl) (by rfl)
  exact ⟨h.1, h.2.2.1, h.2.2.2.2.1 0 1 (by norm_num) (by norm_num)⟩

/-- C10 counterexample: a 182 × 182 two-channel stack (33124 pixels per
channel) with box size 33124 and scale factor 1 (the resize at scale 1
is the identity on this two-channel stack).  The flat argmax index of
each channel is 33123, unraveled to `(0, 33123)`; storing 33123 into
the `int16` output wraps it to `-32413`, which is not in
`[0, box_size)`. -/
theorem C10_int16_wrap_cex :
    extract_2d_joints_from_heatmap bigHm 33124 1 = Except.ok [(0, -32413), (0, -32413)] ∧
    ¬ (0 ≤ (-32413 : ℤ)) := by
  refine ⟨?_, by norm_num⟩
  have ham : ∀ jj : ℕ, argmaxFlat (fun t => bigHm.val (t / bigHm.w) (t % bigHm.w) jj)
      (bigHm.h * bigHm.w) = 33123 := by
    intro jj
    apply argmaxFlat_unique _ _ _ (by decide)
    intro t ht hne
    show bigHm.val (t / bigHm.w) (t % bigHm.w) jj
      < bigHm.val (33123 / bigHm.w) (33123 % bigHm.w) jj
    have hw : bigHm.w = 182 := rfl
    rw [hw]
    show (if t / 182 = 181 ∧ t % 182 = 181 then (1 : ℚ) else 0)
      < (if 33123 / 182 = 181 ∧ 33123 % 182 = 181 then (1 : ℚ) else 0)
    have hT : t < 33124 := by
      have h33 : bigHm.h * bigHm.w = 33124 := rfl
      rw [h33] at ht
      exact ht
    rw [if_neg (by omega), if_pos (by norm_num)]
    norm_num
  have hch : ∀ jj : ℕ, extract_2d_channel bigHm 33124 jj = Except.ok (0, -32413) := by
    intro jj
    unfold extract_2d_channel
    rw [if_pos (by decide : (0 : ℕ) < bigHm.h * bigHm.w), ham jj]
    have hu : unravel_index 33123 33124 33124 = Except.ok (0, 33123) := by
      unfold unravel_index
      rw [if_pos (by norm_num)]
    rw [hu]
    rfl
  show extract_2d_joints_from_heatmap bigHm 33124 1 = Except.ok [(0, -32413), (0, -32413)]
  unfold extract_2d_joints_from_heatmap
  show (img_scale bigHm 1).bind (fun scaled =>
      if scaled.c = 0 then Except.error "tuple index out of range"
      else mapOk (extract_2d_channel scaled 33124) (List.range scaled.c))
    = Except.ok [(0, -32413), (0, -32413)]
  rw [img_scale_one bigHm (by decide) (by decide) (by decide), ok_bind]
  rw [if_neg (by decide : ¬ bigHm.c = 0)]
  rw [show List.range bigHm.c = [0, 1] from rfl]
  exact mapOk_cons _ _ _ (hch 0) (mapOk_cons _ _ _ (hch 1) rfl)

/-- C10 (amended): every coordinate pair returned by
`extract_2d_joints_from_heatmap` lies within `[0, box_size)` provided
`box_size ≤ 32768` (so that the `int16` store cannot wrap). -/
theorem C10_coords_in_box (heatmap : Img) (box_size : ℕ) (hm_factor : ℚ)
    (l : List (ℤ × ℤ)) (j : ℕ) (r c : ℤ)
    (hbox : box_size ≤ 32768)
    (h : extract_2d_joints_from_heatmap heatmap box_size hm_factor = Except.ok l)
    (hg : l.get? j = some (r, c)) :
    0 ≤ r ∧ r < box_size ∧ 0 ≤ c ∧ c < box_size := by
  obtain ⟨scaled, -, hch⟩ := extract_2d_ok_get h hg
  obtain ⟨hpos, hlt, hp⟩ := extract_2d_channel_ok hch
  set am := argmaxFlat (fun t => scaled.val (t / scaled.w) (t % scaled.w) j)
    (scaled.h * scaled.w) with ham
  have hbpos : 0 < box_size := by
    rcases Nat.eq_zero_or_pos box_size with h0 | h0
    · rw [h0] at hlt
      norm_num at hlt
    · exact h0
  have hdiv : am / box_size < box_size := Nat.div_lt_iff_lt_mul hbpos |>.mpr hlt
  have hmod : am % box_size < box_size := Nat.mod_lt _ hbpos
  have hr : r = (am / box_size : ℕ) := by
    have := congrArg Prod.fst hp
    simpa [wrap16_small (am / box_size) (by omega)] using this
  have hc : c = (am % box_size : ℕ) := by
    have := congrArg Prod.snd hp
    simpa [wrap16_small (am % box_size) (by omega)] using this
  refine ⟨by rw [hr]; exact Int.natCast_nonneg _, by rw [hr]; exact_mod_cast hdiv,
    by rw [hc]; exact Int.natCast_nonneg _, by rw [hc]; exact_mod_cast hmod⟩

/-- Witness for the amended C10: the concrete 2 × 2 two-channel run with
box size 2 returns `(1, 0)` for each channel, which lies inside the
box. -/
theorem C10_coords_in_box_witness :
    0 ≤ (1 : ℤ) ∧ (1 : ℤ) < 2 ∧ 0 ≤ (0 : ℤ) ∧ (0 : ℤ) < 2 :=
  C10_coords_in_box whm 2 1 [(1, 0), (1, 0)] 0 1 0 (by norm_num) (by rfl) (by rfl)

theorem scale_to_box (img : Img) (box_size : ℕ) (hh : 1 ≤ img.h) :
    (img.h : ℚ) * ((box_size : ℚ) / (img.h : ℚ)) = box_size := by
  have hne : (img.h : ℚ) ≠ 0 := by
    have h0 : img.h ≠ 0 := by omega
    exact_mod_cast h0
  rw [mul_comm, div_mul_cancel₀ _ hne]

theorem img_scale_box_ok {img : Img} {box_size : ℕ} {s : Img}
    (hok : img_scale img ((box_size : ℚ) / (img.h : ℚ)) = Except.ok s)
    (hc : img.c = 3) :
    s.h = box_size ∧ 1 ≤ box_size ∧ s.c = 3 := by
  obtain ⟨hne_h, -, -, hr1, -, hs⟩ := img_scale_ok_inv hok
  have hh1 : 1 ≤ img.h := by omega
  have hsh : s.h = box_size := by
    rw [hs]
    show natRound ((img.h : ℚ) * ((box_size : ℚ) / (img.h : ℚ))) = box_size
    rw [scale_to_box img box_size hh1, natRound_natCast]
  have hbox : box_size ≠ 0 := by
    intro h0
    apply hr1
    rw [h0, scale_to_box img 0 hh1]
    exact natRound_natCast 0
  have hsc : s.c = 3 := by
    rw [hs]
    show (if img.c = 1 then 0 else img.c) = 3
    rw [if_neg (by omega), hc]
  exact ⟨hsh, by omega, hsc⟩

theorem img_padding_ok (img : Img) (box_size offset pad_num : ℕ)
    (h1 : img.h = box_size) (h2 : img.w < box_size) (h3 : img.c = 3)
    (h4 : offset = img.w % 2) :
    img_padding img box_size offset pad_num = Except.ok
      { h := box_size
        w := box_size
        c := 3
        val := fun i j k =>
          if box_size / 2 - (img.w + 1) / 2 ≤ j ∧
              j < box_size / 2 + (img.w + 1) / 2 - offset then
            img.val i (j - (box_size / 2 - (img.w + 1) / 2)) k
          else ((pad_num % 256 : ℕ) : ℚ) } := by
  subst h4
  unfold img_padding
  rw [if_pos h1, if_pos h2, if_pos ⟨h3, by omega, by omega, by omega⟩]

/-- C4 counterexample: a 1 × 2 × 3 image with odd box size 3.  Scaling
gives a 3 × 6 image, the center-crop branch takes a slice of width
`2*(3/2) = 2`, and the final shape assertion fails. -/
theorem C4_odd_box_cex :
    img_scale_squareify cex4 3 = Except.error "cropped image shape invalid" := by rfl

/-- C4 (amended): for every 3-channel image and every even `box_size`
for which the internal resize succeeds (cv2 raises on an empty input or
when a scaled dimension rounds to zero), `img_scale_squareify` succeeds
and returns an array of shape exactly `(box_size, box_size, 3)`, in
both the padding branch (scaled width < box_size) and the center-crop
branch (scaled width >= box_size). -/
theorem C4_shape (img : Img) (box_size : ℕ)
    (hc : img.c = 3) (heven : box_size % 2 = 0)
    (hres : (img_scale img ((box_size : ℚ) / (img.h : ℚ))).isOk = true) :
    (img_scale_squareify img box_size).map (fun r => (r.h, r.w, r.c))
      = Except.ok (box_size, box_size, 3) := by
  simp only [img_scale_squareify]
  cases hok : img_scale img ((box_size : ℚ) / (img.h : ℚ)) with
  | error e =>
    rw [hok] at hres
    exact Bool.noConfusion hres
  | ok s =>
    obtain ⟨hsh, hbp, hsc⟩ := img_scale_box_ok hok hc
    simp only [ok_bind]
    by_cases hlt : s.w < box_size
    · rw [if_pos hlt, img_padding_ok _ _ _ _ hsh hlt hsc rfl, ok_bind]
      unfold checkShape
      rw [if_pos ⟨rfl, rfl, rfl⟩]
      rfl
    · rw [if_neg hlt, ok_bind]
      unfold checkShape
      have hge : box_size ≤ s.w := not_lt.mp hlt
      have hcw : (s.w / 2 + box_size / 2) - (s.w / 2 - box_size / 2) = box_size := by omega
      rw [if_pos ⟨hsh, hcw, hsc⟩]
      show Except.ok (s.h, (s.w / 2 + box_size / 2) - (s.w / 2 - box_size / 2), s.c)
        = Except.ok (box_size, box_size, 3)
      rw [hsh, hcw, hsc]

/-- Witness for the amended C4: a concrete 1 × 1 × 3 image with even box
size 2 (exercising the hypotheses at a concrete input). -/
theorem C4_shape_witness :
    (img_scale_squareify wim1 2).map (fun r => (r.h, r.w, r.c)) = Except.ok (2, 2, 3) :=
  C4_shape wim1 2 rfl (by norm_num) (by decide)

/-- C6: for every image with height equal to `box_size`, width smaller,
3 channels, and `offset = width mod 2`, `img_padding` succeeds and
returns the `box_size × box_size × 3` canvas in which the column band
from `box_size/2 - ceil(w/2)` (inclusive) to
`box_size/2 + ceil(w/2) - offset` (exclusive) holds the input image
unchanged and every other pixel holds `pad_num`; the band has width
exactly `w`. -/
theorem C6_centered_padding (img : Img) (box_size pad_num : ℕ)
    (h1 : img.h = box_size) (h2 : img.w < box_size) (h3 : img.c = 3)
    (hp : pad_num < 256) :
    img_padding img box_size (img.w % 2) pad_num = Except.ok
      { h := box_size
        w := box_size
        c := 3
        val := fun i j k =>
          if box_size / 2 - (img.w + 1) / 2 ≤ j ∧
              j < box_size / 2 + (img.w + 1) / 2 - img.w % 2 then
            img.val i (j - (box_size / 2 - (img.w + 1) / 2)) k
          else (pad_num : ℚ) } ∧
    (box_size / 2 - (img.w + 1) / 2) + img.w
      = box_size / 2 + (img.w + 1) / 2 - img.w % 2 := by
  refine ⟨?_, by omega⟩
  rw [img_padding_ok img box_size _ pad_num h1 h2 h3 rfl, Nat.mod_eq_of_lt hp]

/-- Witness for C6: a concrete 2 × 1 × 3 image padded into a 2 × 2 box
with pad value 5. -/
theorem C6_centered_padding_witness :
    img_padding wpimg 2 1 5 = Except.ok
      { h := 2
        w := 2
        c := 3
        val := fun i j k =>
          if 2 / 2 - (wpimg.w + 1) / 2 ≤ j ∧ j < 2 / 2 + (wpimg.w + 1) / 2 - wpimg.w % 2 then
            wpimg.val i (j - (2 / 2 - (wpimg.w + 1) / 2)) k
          else (5 : ℚ) } ∧
    (2 / 2 - (wpimg.w + 1) / 2) + wpimg.w = 2 / 2 + (wpimg.w + 1) / 2 - wpimg.w % 2 :=
  C6_centered_padding wpimg 2 5 rfl (by decide) rfl (by norm_num)

theorem natRound_le_of_le_one (n : ℕ) (scale : ℚ) (hs : scale ≤ 1) :
    natRound ((n : ℚ) * scale) ≤ n := by
  unfold natRound
  rw [Int.toNat_le]
  calc ⌊(n : ℚ) * scale + 1 / 2⌋ ≤ ⌊(n : ℚ) + 1 / 2⌋ := by
        apply Int.floor_le_floor
        have hmul : (n : ℚ) * scale ≤ (n : ℚ) :=
          mul_le_of_le_one_right (by positivity) hs
        linarith
  _ = n := floor_add_half n

/-- C7 counterexample: the square 2 × 2 × 3 image `wsq` with scale
1/10.  Both scaled dimensions round to zero, so the external resize
raises (cv2 empty-dsize assertion) and `img_scale_padding` returns no
array at all, refuting the claim for this scale factor <= 1.0. -/
theorem C7_small_scale_cex :
    img_scale_padding wsq (1 / 10) 0 = Except.error "!dsize.empty()" := by rfl

/-- C7 (amended): for every square 3-channel image and every scale
factor at most 1 for which the internal resize succeeds (cv2 raises on
nonpositive scales and whenever a scaled dimension rounds to zero),
`img_scale_padding` succeeds and returns an array of exactly the
input's shape; the scaled content starts at offset `(size - s)/2`
(rounded down) in each axis, so the odd leftover pixel of the symmetric
split lands on the trailing edge of each axis. -/
theorem C7_scale_pad_shape (img : Img) (scale : ℚ) (pad_num : ℕ) (scaled : Img)
    (hsq : img.h = img.w) (hc : img.c = 3) (hs : scale ≤ 1)
    (hok : img_scale img scale = Except.ok scaled) :
    (img_scale_padding img scale pad_num).map (fun r => (r.h, r.w, r.c))
      = Except.ok (img.h, img.w, img.c) ∧
    (∀ r, img_scale_padding img scale pad_num = Except.ok r →
      ∀ i j k, r.val i j k =
        if (img.h - scaled.h) / 2 ≤ i ∧ i < (img.h - scaled.h) / 2 + scaled.h ∧
            (img.h - scaled.h) / 2 ≤ j ∧ j < (img.h - scaled.h) / 2 + scaled.h then
          scaled.val (i - (img.h - scaled.h) / 2) (j - (img.h - scaled.h) / 2) k
        else ((pad_num % 256 : ℕ) : ℚ)) := by
  obtain ⟨-, -, -, -, -, hstruct⟩ := img_scale_ok_inv hok
  have hsw : scaled.w = scaled.h := by
    rw [hstruct]
    show natRound ((img.w : ℚ) * scale) = natRound ((img.h : ℚ) * scale)
    rw [hsq]
  have hhle : scaled.h ≤ img.h := by
    rw [hstruct]
    exact natRound_le_of_le_one img.h scale hs
  have hwle : scaled.w ≤ img.h := by
    rw [hsw]
    exact hhle
  have hcc : scaled.c = img.c := by
    rw [hstruct]
    show (if img.c = 1 then 0 else img.c) = img.c
    rw [if_neg (by omega)]
  have hpad : img_scale_padding img scale pad_num = Except.ok
      { h := (img.h - scaled.w) / 2 + scaled.h
          + ((img.h - scaled.w) / 2 + (img.h - scaled.w) % 2)
        w := (img.h - scaled.h) / 2 + scaled.w
          + ((img.h - scaled.h) / 2 + (img.h - scaled.h) % 2)
        c := scaled.c
        val := fun i j k =>
          if (img.h - scaled.w) / 2 ≤ i ∧ i < (img.h - scaled.w) / 2 + scaled.h ∧
              (img.h - scaled.h) / 2 ≤ j ∧ j < (img.h - scaled.h) / 2 + scaled.w then
            scaled.val (i - (img.h - scaled.w) / 2) (j - (img.h - scaled.h) / 2) k
          else ((pad_num % 256 : ℕ) : ℚ) } := by
    simp only [img_scale_padding]
    rw [if_pos hsq, hok, ok_bind, if_pos ⟨hhle, hwle⟩]
  constructor
  · rw [hpad]
    show Except.ok ((img.h - scaled.w) / 2 + scaled.h
        + ((img.h - scaled.w) / 2 + (img.h - scaled.w) % 2),
      (img.h - scaled.h) / 2 + scaled.w
        + ((img.h - scaled.h) / 2 + (img.h - scaled.h) % 2),
      scaled.c) = Except.ok (img.h, img.w, img.c)
    rw [hsw]
    have hch : (img.h - scaled.h) / 2 + scaled.h
        + ((img.h - scaled.h) / 2 + (img.h - scaled.h) % 2) = img.h := by omega
    rw [hch, ← hsq, hcc]
  · intro r hr i j k
    rw [hpad] at hr
    injection hr with hr
    rw [← hr]
    show (if (img.h - scaled.w) / 2 ≤ i ∧ i < (img.h - scaled.w) / 2 + scaled.h ∧
        (img.h - scaled.h) / 2 ≤ j ∧ j < (img.h - scaled.h) / 2 + scaled.w then
      scaled.val (i - (img.h - scaled.w) / 2) (j - (img.h - scaled.h) / 2) k
      else ((pad_num % 256 : ℕ) : ℚ)) = _
    rw [hsw]

/-- Witness for the amended C7: a concrete 2 × 2 × 3 image shrunk by 1/2
(the resize succeeds, both dimensions round to 1) and padded back to
shape (2, 2, 3). -/
theorem C7_scale_pad_shape_witness :
    (img_scale_padding wsq (1 / 2) 9).map (fun r => (r.h, r.w, r.c))
      = Except.ok (wsq.h, wsq.w, wsq.c) :=
  (C7_scale_pad_shape wsq (1 / 2) 9 _ rfl rfl (by norm_num) (by rfl)).1

theorem squareify_fixed (X : Img) (box_size : ℕ)
    (hh : X.h = box_size) (hw : X.w = box_size) (hc : X.c = 3)
    (hpos : 1 ≤ box_size) (heven : box_size % 2 = 0) :
    img_scale_squareify X box_size = Except.ok X := by
  simp only [img_scale_squareify]
  have hs1 : ((box_size : ℚ) / (X.h : ℚ)) = 1 := by
    rw [hh]
    exact div_self (by exact_mod_cast Nat.pos_iff_ne_zero.mp hpos)
  rw [hs1, img_scale_one X (by omega) (by omega) (by omega)]
  simp only [ok_bind]
  rw [if_neg (by omega : ¬ X.w < box_size)]
  have h0 : X.w / 2 - box_size / 2 = 0 := by omega
  rw [h0]
  simp only [add_zero, Nat.sub_zero]
  have hcw : X.w / 2 + box_size / 2 = box_size := by omega
  rw [hcw, ok_bind]
  unfold checkShape
  rw [if_pos ⟨hh, rfl, hc⟩]
  rw [← hw]

theorem squareify_error_empty (X : Img) (hh : X.h = 0) :
    img_scale_squareify X 0 = Except.error "!ssize.empty()" := by
  simp only [img_scale_squareify]
  have hsc : img_scale X (((0 : ℕ) : ℚ) / (X.h : ℚ)) = Except.error "!ssize.empty()" := by
    unfold img_scale
    rw [if_pos (Or.inl hh)]
  rw [hsc, error_bind]

theorem squareify_odd (X : Img) (box_size : ℕ)
    (hh : X.h = box_size) (hw : X.w = box_size) (hc : X.c = 3)
    (hpos : 1 ≤ box_size) (hodd : box_size % 2 = 1) :
    img_scale_squareify X box_size = Except.error "cropped image shape invalid" := by
  simp only [img_scale_squareify]
  have hs1 : ((box_size : ℚ) / (X.h : ℚ)) = 1 := by
    rw [hh]
    exact div_self (by exact_mod_cast Nat.pos_iff_ne_zero.mp hpos)
  rw [hs1, img_scale_one X (by omega) (by omega) (by omega)]
  simp only [ok_bind]
  rw [if_neg (by omega : ¬ X.w < box_size), ok_bind]
  unfold checkShape
  rw [if_neg (fun hcon => by
    have h2 : X.w / 2 + box_size / 2 - (X.w / 2 - box_size / 2) = box_size := hcon.2.1
    omega)]

/-- C8: for every already-square 3-channel image of shape
`(box_size, box_size, 3)`, applying `img_scale_squareify` twice with the
same box size gives the same result as applying it once: on positive
even box sizes the first application is the identity on such an image,
on odd box sizes both sides fail with the same shape-assertion error,
and at box size 0 both sides fail inside the resize. -/
theorem C8_idempotent (img : Img) (box_size : ℕ)
    (hh : img.h = box_size) (hw : img.w = box_size) (hc : img.c = 3) :
    (img_scale_squareify img box_size).bind (fun r => img_scale_squareify r box_size)
      = img_scale_squareify img box_size := by
  rcases Nat.eq_zero_or_pos box_size with h0 | hpos
  · subst h0
    rw [squareify_error_empty img hh, error_bind]
  · rcases Nat.mod_two_eq_zero_or_one box_size with he | ho
    · rw [squareify_fixed img box_size hh hw hc hpos he, ok_bind]
      exact squareify_fixed img box_size hh hw hc hpos he
    · rw [squareify_odd img box_size hh hw hc hpos ho]
      rfl

/-- Witness for C8: the concrete 2 × 2 × 3 image with box size 2. -/
theorem C8_idempotent_witness :
    (img_scale_squareify wsq 2).bind (fun r => img_scale_squareify r 2)
      = img_scale_squareify wsq 2 :=
  C8_idempotent wsq 2 rfl rfl rfl

theorem realTrunc_of_nonneg {r : ℝ} (h : 0 ≤ r) : realTrunc r = ⌊r⌋ := if_pos h

theorem realTrunc_nonneg {r : ℝ} (h : 0 ≤ r) : 0 ≤ realTrunc r := by
  rw [realTrunc_of_nonneg h]
  exact Int.floor_nonneg.mpr h

theorem realTrunc_le {r : ℝ} {n : ℕ} (h : r ≤ n) : realTrunc r ≤ n := by
  unfold realTrunc
  split
  · exact Int.floor_le_iff.mpr (by push_cast; linarith)
  · rename_i hneg
    have : realTrunc r ≤ 0 := by
      unfold realTrunc
      rw [if_neg hneg]
      exact Int.ceil_le.mpr (by push_cast; linarith)
    unfold realTrunc at this
    rw [if_neg hneg] at this
    omega

theorem le_realTrunc {r : ℝ} {n : ℕ} (h : (n : ℝ) ≤ r) : (n : ℤ) ≤ realTrunc r := by
  have h0 : (0 : ℝ) ≤ r := le_trans (by positivity) h
  rw [realTrunc_of_nonneg h0]
  exact Int.le_floor.mpr (by push_cast; linarith)

theorem th_cast : ((th : ℚ) : ℝ) = 46052 / 10000 := by
  unfold th
  push_cast
  norm_num

theorem sqrtTh2_nonneg : 0 ≤ sqrtTh2 := Real.sqrt_nonneg _

theorem three_le_sqrtTh2 : (3 : ℝ) ≤ sqrtTh2 := by
  unfold sqrtTh2
  rw [th_cast]
  refine (Real.le_sqrt (by norm_num) (by norm_num)).mpr ?_
  norm_num

theorem gauss_arg_eq (cx cy sigma : ℚ) (x y : ℕ) :
    gauss_arg cx cy sigma x y
      = (((x : ℚ) - cx) ^ 2 + ((y : ℚ) - cy) ^ 2) / (2 * sigma ^ 2) := by
  unfold gauss_arg
  rw [div_div, div_div]
  ring_nf

theorem th_eq : th = 4.6052 := by
  norm_num [th]

theorem center_arg : gauss_arg 5 5 3 5 5 = 0 := by
  unfold gauss_arg
  norm_num

theorem bbox_center : inBBox (gen_bounds 20 20 5 5 3) 5 5 := by
  have hup : ((5 : ℚ) : ℝ) - sqrtTh2 * ((3 : ℚ) : ℝ) ≤ 5 := by
    have h0 : (0 : ℝ) ≤ sqrtTh2 * ((3 : ℚ) : ℝ) := by
      have := sqrtTh2_nonneg
      push_cast
      positivity
    push_cast at h0 ⊢
    linarith
  have hlow : (6 : ℝ) ≤ min ((20 : ℕ) : ℝ) (((5 : ℚ) : ℝ) + sqrtTh2 * ((3 : ℚ) : ℝ)) := by
    have h3 := three_le_sqrtTh2
    refine le_min (by push_cast; norm_num) ?_
    push_cast
    nlinarith
  have hle : realTrunc (max 0 (((5 : ℚ) : ℝ) - sqrtTh2 * ((3 : ℚ) : ℝ))) ≤ (5 : ℕ) := by
    refine realTrunc_le ?_
    refine max_le (by norm_num) (by push_cast at hup ⊢; linarith)
  have hlt : ((6 : ℕ) : ℤ)
      ≤ realTrunc (min ((20 : ℕ) : ℝ) (((5 : ℚ) : ℝ) + sqrtTh2 * ((3 : ℚ) : ℝ))) := by
    refine le_realTrunc ?_
    push_cast at hlow ⊢
    linarith
  refine ⟨?_, ?_, ?_, ?_⟩
  · show realTrunc (max 0 (((5 : ℚ) : ℝ) - sqrtTh2 * ((3 : ℚ) : ℝ))) ≤ ((5 : ℕ) : ℤ)
    exact_mod_cast hle
  · show ((5 : ℕ) : ℤ)
      < realTrunc (min ((20 : ℕ) : ℝ) (((5 : ℚ) : ℝ) + sqrtTh2 * ((3 : ℚ) : ℝ)))
    have := hlt
    omega
  · show realTrunc (max 0 (((5 : ℚ) : ℝ) - sqrtTh2 * ((3 : ℚ) : ℝ))) ≤ ((5 : ℕ) : ℤ)
    exact_mod_cast hle
  · show ((5 : ℕ) : ℤ)
      < realTrunc (min ((20 : ℕ) : ℝ) (((5 : ℚ) : ℝ) + sqrtTh2 * ((3 : ℚ) : ℝ)))
    have := hlt
    omega

/-- C5: `gen_heatmap` with center `(5, 5)` and `sigma = 3` on a 20 × 20
canvas equals exactly 1 at pixel `(5, 5)`; for every shape, center and
sigma, a pixel whose squared distance `d` from the center has
`d / (2*sigma^2) > 4.6052`, or which lies outside the computed bounding
box, holds exactly 0, and every other pixel inside the bounding box
holds `exp(-d / (2*sigma^2))`. -/
theorem C5_gaussian :
    gen_heatmap (20, 20) (5, 5) 3 5 5 = 1 ∧
    (∀ (hgt wdt : ℕ) (cx cy sigma : ℚ) (y x : ℕ),
      ((((x : ℚ) - cx) ^ 2 + ((y : ℚ) - cy) ^ 2) / (2 * sigma ^ 2) > 4.6052 ∨
        ¬ inBBox (gen_bounds wdt hgt cx cy sigma) x y) →
      gen_heatmap (hgt, wdt) (cx, cy) sigma y x = 0) ∧
    (∀ (hgt wdt : ℕ) (cx cy sigma : ℚ) (y x : ℕ),
      inBBox (gen_bounds wdt hgt cx cy sigma) x y →
      (((x : ℚ) - cx) ^ 2 + ((y : ℚ) - cy) ^ 2) / (2 * sigma ^ 2) ≤ 4.6052 →
      gen_heatmap (hgt, wdt) (cx, cy) sigma y x
        = Real.exp (-(((((x : ℚ) - cx) ^ 2 + ((y : ℚ) - cy) ^ 2) / (2 * sigma ^ 2) : ℚ) : ℝ))) := by
  refine ⟨?_, ?_, ?_⟩
  · unfold gen_heatmap
    rw [if_pos ⟨bbox_center, by rw [center_arg, th_eq]; norm_num⟩]
    rw [center_arg]
    push_cast
    rw [neg_zero, Real.exp_zero]
  · intro hgt wdt cx cy sigma y x hyp
    unfold gen_heatmap
    rcases hyp with harg | hbb
    · rw [if_neg]
      intro hcon
      have h2 := hcon.2
      rw [gauss_arg_eq, th_eq] at h2
      exact absurd h2 (not_le.mpr harg)
    · rw [if_neg]
      intro hcon
      exact hbb hcon.1
  · intro hgt wdt cx cy sigma y x hbb harg
    unfold gen_heatmap
    rw [if_pos ⟨hbb, by rw [gauss_arg_eq, th_eq]; exact harg⟩]
    rw [gauss_arg_eq]

/-- Witness for C5: pixel `(13, 13)` on the 20 × 20 canvas lies beyond
the truncation threshold (`128/18 > 4.6052`) and holds exactly 0. -/
theorem C5_gaussian_witness : gen_heatmap (20, 20) (5, 5) 3 13 13 = 0 :=
  C5_gaussian.2.1 20 20 5 5 3 13 13 (Or.inl (by norm_num))

/-- C9: the loop bounds of `gen_heatmap` are clamped into the canvas for
every width, height, center and sigma — the lower bounds are nonnegative
and the upper bounds do not exceed the canvas dimensions, so every index
in the iteration ranges is in range (vacuously when the clamped bounds
cross) — and a nonzero heatmap value can only occur at an in-canvas
pixel. -/
theorem C9_gen_bounds_safe :
    (∀ (w h : ℕ) (cx cy sigma : ℚ),
      0 ≤ (gen_bounds w h cx cy sigma).x0 ∧ (gen_bounds w h cx cy sigma).x1 ≤ w ∧
      0 ≤ (gen_bounds w h cx cy sigma).y0 ∧ (gen_bounds w h cx cy sigma).y1 ≤ h ∧
      (∀ x : ℤ, (gen_bounds w h cx cy sigma).x0 ≤ x → x < (gen_bounds w h cx cy sigma).x1 →
        0 ≤ x ∧ x < w) ∧
      (∀ y : ℤ, (gen_bounds w h cx cy sigma).y0 ≤ y → y < (gen_bounds w h cx cy sigma).y1 →
        0 ≤ y ∧ y < h)) ∧
    (∀ (hgt wdt : ℕ) (cx cy sigma : ℚ) (y x : ℕ),
      gen_heatmap (hgt, wdt) (cx, cy) sigma y x ≠ 0 → y < hgt ∧ x < wdt) := by
  have hbounds : ∀ (w h : ℕ) (cx cy sigma : ℚ),
      0 ≤ (gen_bounds w h cx cy sigma).x0 ∧ (gen_bounds w h cx cy sigma).x1 ≤ w ∧
      0 ≤ (gen_bounds w h cx cy sigma).y0 ∧ (gen_bounds w h cx cy sigma).y1 ≤ h := by
    intro w h cx cy sigma
    refine ⟨realTrunc_nonneg (le_max_left 0 _), realTrunc_le (min_le_left _ _),
      realTrunc_nonneg (le_max_left 0 _), realTrunc_le (min_le_left _ _)⟩
  constructor
  · intro w h cx cy sigma
    obtain ⟨h1, h2, h3, h4⟩ := hbounds w h cx cy sigma
    exact ⟨h1, h2, h3, h4, fun x hx1 hx2 => by omega, fun y hy1 hy2 => by omega⟩
  · intro hgt wdt cx cy sigma y x hne
    unfold gen_heatmap at hne
    by_cases hcon : inBBox (gen_bounds wdt hgt cx cy sigma) x y ∧
        gauss_arg cx cy sigma x y ≤ th
    · obtain ⟨⟨hb1, hb2, hb3, hb4⟩, -⟩ := hcon
      obtain ⟨-, hgx, -, hg4⟩ := hbounds wdt hgt cx cy sigma
      constructor
      · have : (y : ℤ) < hgt := lt_of_lt_of_le hb2 hg4
        exact_mod_cast this
      · have : (x : ℤ) < wdt := lt_of_lt_of_le hb4 hgx
        exact_mod_cast this
    · rw [if_neg hcon] at hne
      exact absurd rfl hne

/-- Witness for C9: the nonzero center pixel of the concrete 20 × 20
heatmap is inside the canvas. -/
theorem C9_gen_bounds_safe_witness :
    gen_heatmap (20, 20) (5, 5) 3 5 5 ≠ 0 ∧ 5 < 20 ∧ 5 < 20 := by
  have hne : gen_heatmap (20, 20) (5, 5) 3 5 5 ≠ 0 := by
    unfold gen_heatmap
    rw [if_pos ⟨bbox_center, by rw [center_arg, th_eq]; norm_num⟩]
    exact (Real.exp_pos _).ne'
  exact ⟨hne, (C9_gen_bounds_safe.2 20 20 5 5 3 5 5 hne).1, (C9_gen_bounds_safe.2 20 20 5 5 3 5 5 hne).2⟩

end VNect
